import Mathlib

/-!
# Verification of the birdnet-audio-walker batch analysis pipeline

Shallow embedding of the core pipeline of the `fherb2/birdnet-audio-walker`
repository: segment time calculation (`source/segmentation.py`,
`source/birdnet_walker/birdnet_analyzer.py`), the embedding correlator
(`find_needed_segments`, `match_embeddings_to_detections`), the SQLite
persistence layer (`source/birdnet_walker/database.py`) and the
keyword-based error scan of the analysis loop
(`source/birdnet_walker/main.py`).

Durations and timestamps are modelled as rationals (`ℚ`): every concrete
time appearing in the claims (multiples of 1.5 well inside the f64 range)
is represented exactly in binary floating point, and all arithmetic the
code performs on them (additions of such values) is exact, so the rational
model agrees with the Python float computation on these inputs.
-/

namespace BirdnetWalker

/-! ## Segment Time Calculator

`generate_segments` (source/segmentation.py): a `while start < total_duration`
loop; each iteration clips `end = min(start + segment_length, total_duration)`,
keeps the window only if `end - start >= 1.0`, and advances `start += stride`.

The Python loop terminates exactly when `stride > 0` (or the duration is
non-positive); the Lean model supplies a fuel bound `⌈D/S⌉ + 1` that is
provably at least the number of loop iterations, and returns `[]` for a
non-positive stride, where the source loop would not terminate. -/

def segsFrom (total_duration segment_length stride : ℚ) :
    ℕ → ℚ → List (ℚ × ℚ)
  | 0, _ => []
  | fuel + 1, start =>
    if start < total_duration then
      let e := min (start + segment_length) total_duration
      if 1 ≤ e - start then
        (start, e) :: segsFrom total_duration segment_length stride fuel (start + stride)
      else
        segsFrom total_duration segment_length stride fuel (start + stride)
    else []

def generate_segments (total_duration segment_length stride : ℚ) :
    List (ℚ × ℚ) :=
  if 0 < stride then
    segsFrom total_duration segment_length stride
      (⌈total_duration / stride⌉.toNat + 1) 0
  else []

/-- `calculate_segment_times` (birdnet_analyzer.py): `hop = L - O`;
segment `i` spans `(i*hop, i*hop + L)`, for `i = 0 .. n_segments - 1`. -/
def calculate_segment_times (n_segments : ℕ)
    (segment_duration_s overlap_duration_s : ℚ) : List (ℚ × ℚ) :=
  (List.range n_segments).map fun i =>
    ((i : ℚ) * (segment_duration_s - overlap_duration_s),
     (i : ℚ) * (segment_duration_s - overlap_duration_s) + segment_duration_s)

/-! ### Soundness of the generated windows -/

theorem segsFrom_sound (D L S : ℚ) :
    ∀ (n : ℕ) (st : ℚ), ∀ se ∈ segsFrom D L S n st,
      se.1 < D ∧ se.2 = min (se.1 + L) D ∧ 1 ≤ se.2 - se.1 := by
  intro n
  induction n with
  | zero => intro st se h; simp [segsFrom] at h
  | succ k ih =>
    intro st se h
    simp only [segsFrom] at h
    by_cases h1 : st < D
    · rw [if_pos h1] at h
      by_cases h2 : 1 ≤ min (st + L) D - st
      · rw [if_pos h2] at h
        rcases List.mem_cons.mp h with h3 | h3
        · subst h3; exact ⟨h1, rfl, h2⟩
        · exact ih _ se h3
      · rw [if_neg h2] at h
        exact ih _ se h
    · rw [if_neg h1] at h
      simp at h

/-! ## Embedding Correlator

`find_needed_segments` and `match_embeddings_to_detections`
(birdnet_analyzer.py). A detection carries float start and end times in
seconds relative to the file start; it is matched against the segment list
by exact equality of both times, first match wins. -/

/-- One BirdNET detection as produced by `analyze_file`. -/
structure Detection where
  scientific_name : String
  common_name : String
  confidence : ℚ
  start_time : ℚ
  end_time : ℚ
deriving DecidableEq

/-- The inner `for seg_idx, (seg_start, seg_end) in enumerate(segment_times)`
loop with its `break`: index of the first segment whose (start, end) equals
the detection times exactly, if any. -/
def firstMatchIdx (det_start det_end : ℚ) :
    List (ℚ × ℚ) → ℕ → Option ℕ
  | [], _ => none
  | se :: rest, i =>
    if se.1 = det_start ∧ se.2 = det_end then some i
    else firstMatchIdx det_start det_end rest (i + 1)

/-- Keep-last deduplication; the Python code accumulates the matched
segment indices in a `set`, so only the membership matters and the result
is sorted afterwards. -/
def dedupN : List ℕ → List ℕ
  | [] => []
  | n :: ns => if n ∈ dedupN ns then dedupN ns else n :: dedupN ns

def insertAsc (n : ℕ) : List ℕ → List ℕ
  | [] => [n]
  | m :: ms => if n ≤ m then n :: m :: ms else m :: insertAsc n ms

def sortAsc : List ℕ → List ℕ
  | [] => []
  | n :: ns => insertAsc n (sortAsc ns)

/-- Pair each element with its position, starting at `i`: builds the
`{old_idx : new_compact_idx}` dictionary from the sorted needed list. -/
def withIdx : ℕ → List ℕ → List (ℕ × ℕ)
  | _, [] => []
  | i, n :: ns => (n, i) :: withIdx (i + 1) ns

/-- `find_needed_segments(detections, segment_times)`: the set of matched
original segment indices, sorted ascending, each assigned a 0-based compact
index in that order; returned as the association list
`old_segment_idx -> new_compact_idx`. -/
def find_needed_segments (detections : List Detection)
    (segment_times : List (ℚ × ℚ)) : List (ℕ × ℕ) :=
  withIdx 0 (sortAsc (dedupN (detections.filterMap fun d =>
    firstMatchIdx d.start_time d.end_time segment_times 0)))

/-- Dictionary lookup in the `old_segment_idx -> new_compact_idx`
association list (the membership test plus subscript on the Python dict). -/
def lookupN (k : ℕ) : List (ℕ × ℕ) → Option ℕ
  | [] => none
  | (a, b) :: rest => if k = a then some b else lookupN k rest

/-- `match_embeddings_to_detections(detections, segment_times,
index_mapping, start_idx)`: each detection is annotated with
`start_idx + index_mapping[matched_segment]` when its times exactly match a
segment that is in the mapping, and with `None` otherwise. The function is
total: an unmatched detection is returned, never raised on. -/
def match_embeddings_to_detections (detections : List Detection)
    (segment_times : List (ℚ × ℚ)) (index_mapping : List (ℕ × ℕ))
    (start_idx : ℕ) : List (Detection × Option ℕ) :=
  detections.map fun d =>
    match firstMatchIdx d.start_time d.end_time segment_times 0 with
    | some segIdx =>
      match lookupN segIdx index_mapping with
      | some compactIdx => (d, some (start_idx + compactIdx))
      | none => (d, none)
    | none => (d, none)

/-! ## Persistent Store (source/birdnet_walker/database.py)

The SQLite layer is modelled relationally: a `DB` holds the three tables
as lists of rows. The `processing_status.status` column only ever holds
one of the four literal strings `pending`, `processing`, `completed`,
`failed`, modelled as an enumeration.

Connection semantics follow Python sqlite3 with its default
`isolation_level`: DML statements act on an implicit open transaction,
`commit()` publishes the pending state, `rollback()` discards it, and
`close()` without a commit DISCARDS uncommitted changes (sqlite3 docs: if
you close without committing, your changes will be lost). -/

inductive Status where
  | pending
  | processing
  | completed
  | failed
deriving DecidableEq

/-- Row of the `metadata` table. Timestamps are seconds as rationals; the
pure-formatting columns (serial, gps, gain, firmware, ...) carry no logic
in any claim and are omitted. -/
structure MetaRow where
  filename : String
  timestamp_utc : ℚ
  timestamp_local : ℚ
  timezone : String
deriving DecidableEq

/-- Row of the `detections` table (keyed columns; the local-time and
translated-name columns are derived the same way as the ones kept). -/
structure DetRow where
  filename : String
  segment_start_utc : ℚ
  segment_end_utc : ℚ
  scientific_name : String
  confidence : ℚ
deriving DecidableEq

/-- Row of the `processing_status` table. -/
structure StatusRow where
  filename : String
  status : Status
  started_at : Option ℚ
  completed_at : Option ℚ
  error_message : Option String
deriving DecidableEq

structure DB where
  metadata : List MetaRow
  detections : List DetRow
  status : List StatusRow
deriving DecidableEq

/-- A fresh `pending` status row as written by `insert_metadata` and
`repair_orphaned_metadata`. -/
def pendingRow (f : String) : StatusRow :=
  ⟨f, Status.pending, none, none, none⟩

/-! ### Connection model -/

/-- An open sqlite3 connection: the durable state and the state seen by
the connection itself (its uncommitted transaction included). -/
structure Conn where
  committed : DB
  pending : DB
deriving DecidableEq

def connect (db : DB) : Conn := ⟨db, db⟩

/-- Execute a DML statement: it changes only the connection's transaction
state, not the durable state. -/
def execDML (f : DB → DB) (c : Conn) : Conn := ⟨c.committed, f c.pending⟩

def commitTxn (c : Conn) : Conn := ⟨c.pending, c.pending⟩

def rollbackTxn (c : Conn) : Conn := ⟨c.committed, c.committed⟩

/-- Closing the connection keeps only the committed state: uncommitted
changes are lost. -/
def closeConn (c : Conn) : DB := c.committed

/-! ### insert_metadata -/

/-- `INSERT OR REPLACE INTO metadata`: the conflicting row (same UNIQUE
filename) is removed and the new row inserted. -/
def upsertMeta (m : MetaRow) (db : DB) : DB :=
  { db with metadata := db.metadata.filter (fun r => !(r.filename == m.filename)) ++ [m] }

/-- `INSERT OR IGNORE INTO processing_status (filename, status) VALUES (?,
'pending')`: inserts a fresh pending row unless one with that primary key
already exists. -/
def ensureStatusRow (f : String) (db : DB) : DB :=
  if db.status.any (fun r => r.filename == f) then db
  else { db with status := db.status ++ [pendingRow f] }

/-- `insert_metadata(db_path, metadata)`: upsert of the metadata row, then
the OR IGNORE insert of the pending status row, committed together. -/
def insert_metadata (db : DB) (m : MetaRow) : DB :=
  closeConn (commitTxn (execDML (ensureStatusRow m.filename)
    (execDML (upsertMeta m) (connect db))))

/-! ### batch_insert_detections -/

/-- The row `INSERT INTO detections` builds from one detection: absolute
timestamps are the file timestamp plus the detection's relative seconds,
and the scientific name passes through `translate_species_name` (modelled
by the opaque parameter `translate`). -/
def mkDetRow (filename : String) (meta : MetaRow)
    (translate : String → String) (d : Detection) : DetRow :=
  ⟨filename, meta.timestamp_utc + d.start_time, meta.timestamp_utc + d.end_time,
   translate d.scientific_name, d.confidence⟩

def insertDet (row : DetRow) (db : DB) : DB :=
  { db with detections := db.detections ++ [row] }

/-- `UPDATE processing_status SET status = 'completed', completed_at = ?
WHERE filename = ?`. -/
def markCompleted (f : String) (now : ℚ) (db : DB) : DB :=
  { db with status := db.status.map fun r =>
      if r.filename == f then { r with status := Status.completed, completed_at := some now }
      else r }

/-- The `for detection in detections` insert loop. `failAt = some k` makes
the insert of detection `k` raise (modelling an arbitrary mid-transaction
failure); the result is `inl` with the connection state at the failure,
`inr` on success. -/
def insertLoopAux (rows : List DetRow) (failAt : Option ℕ) (c : Conn) :
    Conn ⊕ Conn :=
  match rows with
  | [] => Sum.inr c
  | r :: rs =>
    match failAt with
    | some 0 => Sum.inl c
    | some (k + 1) => insertLoopAux rs (some k) (execDML (insertDet r) c)
    | none => insertLoopAux rs none (execDML (insertDet r) c)

/-- `batch_insert_detections(db_path, filename, metadata, detections, ...)`.

Mirrors the source line by line: early return on an empty detection list;
`BEGIN TRANSACTION` (a no-op in the model, the connection is already
transactional); the insert loop; on an exception `conn.rollback()` then
`conn.close()`; on success `conn.commit()`, then the `UPDATE
processing_status ... 'completed'` statement, then `conn.close()`.

Note the source commits BEFORE the status update and never commits again:
the update runs in a fresh implicit transaction that is discarded when the
connection closes. -/
def batch_insert_detections (db : DB) (filename : String) (meta : MetaRow)
    (detections : List Detection) (translate : String → String) (now : ℚ)
    (failAt : Option ℕ) : DB :=
  if detections.isEmpty then db
  else
    let c := connect db
    match insertLoopAux (detections.map (mkDetRow filename meta translate)) failAt c with
    | Sum.inl cf => closeConn (rollbackTxn cf)
    | Sum.inr cs => closeConn (execDML (markCompleted filename now) (commitTxn cs))

/-! ### Startup recovery: cleanup_incomplete_files, repair_orphaned_metadata -/

def isIncomplete (r : StatusRow) : Bool :=
  r.status == Status.processing || r.status == Status.failed

/-- The body of the per-filename cleanup loop: `DELETE FROM detections
WHERE filename = ?` and `UPDATE processing_status SET status = 'pending',
started_at = NULL, completed_at = NULL, error_message = NULL WHERE
filename = ?`. -/
def cleanupOne (f : String) (db : DB) : DB :=
  { db with
    detections := db.detections.filter (fun d => !(d.filename == f)),
    status := db.status.map fun r =>
      if r.filename == f then pendingRow r.filename else r }

/-- `cleanup_incomplete_files(db_path)`: select the filenames whose status
is `processing` or `failed`, run the cleanup loop over them, commit
(nothing is executed or committed when the list is empty). -/
def cleanup_incomplete_files (db : DB) : DB :=
  let incomplete := (db.status.filter isIncomplete).map (·.filename)
  if incomplete.isEmpty then db
  else
    closeConn (commitTxn (execDML
      (fun d => incomplete.foldl (fun acc f => cleanupOne f acc) d)
      (connect db)))

/-- `repair_orphaned_metadata(db_path)`: filenames present in `metadata`
but absent from `processing_status` each get a plain `INSERT` of a fresh
pending status row, committed together (no statement when none found). -/
def repair_orphaned_metadata (db : DB) : DB :=
  let orphaned := (db.metadata.map (·.filename)).filter
    (fun f => !(db.status.any (fun r => r.filename == f)))
  if orphaned.isEmpty then db
  else
    closeConn (commitTxn (execDML
      (fun d => orphaned.foldl
        (fun acc f => { acc with status := acc.status ++ [pendingRow f] }) d)
      (connect db)))

/-- The startup recovery sequence as run by `process_folder` (main.py):
`repair_orphaned_metadata` first, then `cleanup_incomplete_files`. -/
def startup_recovery (db : DB) : DB :=
  cleanup_incomplete_files (repair_orphaned_metadata db)

/-! ## Analysis loop error scan (source/birdnet_walker/main.py)

The captured diagnostic stream is modelled as a list of characters. -/

/-- Character-list version of Python `needle in haystack` (substring
containment): `leadsSeq` is the prefix test, `containsSeq` scans every
tail. -/
def leadsSeq : List Char → List Char → Bool
  | [], _ => true
  | _ :: _, [] => false
  | a :: as, b :: bs => a == b && leadsSeq as bs

def containsSeq (needle : List Char) : List Char → Bool
  | [] => needle.isEmpty
  | c :: rest => leadsSeq needle (c :: rest) || containsSeq needle rest

/-- The fixed keyword list of `process_folder`. -/
def error_keywords : List (List Char) :=
  ["error".toList, "cancelled".toList, "out of memory".toList, "oom".toList,
   "illegal memory".toList, "segmentation fault".toList, "fatal".toList]

/-- The `for keyword in error_keywords` scan over the lowercased stderr:
`continue` past the keyword `error` when the literal `0 error` is present,
`break` with an error on any other hit. -/
def scanCritical : List (List Char) → List Char → Bool
  | [], _ => false
  | kw :: rest, s =>
    if containsSeq kw s then
      if kw == "error".toList && containsSeq "0 error".toList s then
        scanCritical rest s
      else true
    else scanCritical rest s

/-- The work package `(filename, Recording, [Detection])` enqueued to the
DB writer. -/
structure AnalysisPkg where
  filename : String
  meta : MetaRow
  detections : List Detection
deriving DecidableEq

/-- What the analysis loop does with one analyzed recording: enqueue its
package, or mark it failed with a diagnostic message. -/
inductive LoopAction where
  | enqueue (pkg : AnalysisPkg)
  | markFailed (filename : String) (msg : List Char)
deriving DecidableEq

def lowerStr (s : List Char) : List Char := s.map Char.toLower

/-- The failure diagnostic: the literal message built by the source,
`'TensorFlow error: ' + stderr_output[:200]`. -/
def truncMsg (stderr : List Char) : List Char :=
  "TensorFlow error: ".toList ++ stderr.take 200

/-- The decision the analysis loop takes after a successful classifier
call for one recording: scan the lowercased captured stderr; on a critical
keyword mark the file failed with the truncated diagnostic and do not
enqueue; otherwise enqueue the package. -/
def handle_analysis (filename : String) (meta : MetaRow)
    (detections : List Detection) (stderr : List Char) : LoopAction :=
  if scanCritical error_keywords (lowerStr stderr) then
    LoopAction.markFailed filename (truncMsg stderr)
  else
    LoopAction.enqueue ⟨filename, meta, detections⟩

/-! ## Theorems -/

/-! ### C5: segmentation example D=9, L=3, O=1.5 -/

/-- C5 counterexample: with total duration 9, segment length 3 and
hop = L − O = 1.5 passed as the stride, `generate_segments` does NOT
return exactly the five claimed segments: its final-window clipping keeps
a sixth segment. -/
theorem C5_counterexample : generate_segments 9 3 (3/2) ≠
    [(0, 3), (3/2, 9/2), (3, 6), (9/2, 15/2), (6, 9)] := by
  have h6 : ⌈(9:ℚ) / (3/2)⌉ = 6 := by
    rw [show (9:ℚ)/(3/2) = 6 by norm_num]
    exact Int.ceil_ofNat 6
  rw [generate_segments, if_pos (by norm_num : (0:ℚ) < 3/2), h6]
  norm_num [segsFrom]

/-- C5 (amended): for D=9, L=3, O=1.5 (hop 1.5), the segment list is the
five claimed segments FOLLOWED BY the clipped window (7.5, 9), which the
code keeps because its clipped length 1.5 s is at least the 1.0 s
minimum. -/
theorem C5_segmentation : generate_segments 9 3 (3/2) =
    [(0, 3), (3/2, 9/2), (3, 6), (9/2, 15/2), (6, 9), (15/2, 9)] := by
  have h6 : ⌈(9:ℚ) / (3/2)⌉ = 6 := by
    rw [show (9:ℚ)/(3/2) = 6 by norm_num]
    exact Int.ceil_ofNat 6
  rw [generate_segments, if_pos (by norm_num : (0:ℚ) < 3/2), h6]
  norm_num [segsFrom]

/-! ### C10: soundness of every generated window -/

/-- C10: for stride S > 0, every (start, end) pair returned by
`generate_segments` has start < D, end = min(start + L, D) and a length of
at least 1.0 s; a window whose clipped length is below 1.0 s is never in
the result. -/
theorem C10_generate_segments_sound (D L S : ℚ) (hS : 0 < S) :
    (∀ se ∈ generate_segments D L S,
        se.1 < D ∧ se.2 = min (se.1 + L) D ∧ 1 ≤ se.2 - se.1) ∧
    (∀ s e : ℚ, e - s < 1 → (s, e) ∉ generate_segments D L S) := by
  have hsound : ∀ se ∈ generate_segments D L S,
      se.1 < D ∧ se.2 = min (se.1 + L) D ∧ 1 ≤ se.2 - se.1 := by
    intro se hse
    rw [generate_segments, if_pos hS] at hse
    exact segsFrom_sound D L S _ 0 se hse
  refine ⟨hsound, ?_⟩
  intro s e hlt hmem
  have h := (hsound (s, e) hmem).2.2
  simp only at h
  linarith

/-- C10 witness: D=2, L=3, S=1 gives the clipped window (1, 2), on which
the three properties hold. -/
theorem C10_generate_segments_sound_witness :
    (0:ℚ) < 1 ∧ ((1:ℚ), (2:ℚ)) ∈ generate_segments 2 3 1 ∧
      ((1:ℚ) < 2 ∧ (2:ℚ) = min (1 + 3) 2 ∧ 1 ≤ (2:ℚ) - 1) := by
  have hmem : ((1:ℚ), (2:ℚ)) ∈ generate_segments 2 3 1 := by
    have h2 : ⌈(2:ℚ) / 1⌉ = 2 := by
      rw [show (2:ℚ)/1 = 2 by norm_num]
      exact Int.ceil_ofNat 2
    rw [generate_segments, if_pos (by norm_num : (0:ℚ) < 1), h2]
    norm_num [segsFrom]
  exact ⟨by norm_num, hmem,
    (C10_generate_segments_sound 2 3 1 (by norm_num)).1 _ hmem⟩

/-! ### C1: correlator compaction example -/

/-- Ten segments with L = 3, O = 1.5, as both classifier passes produce
for the same file. -/
def tenSegments : List (ℚ × ℚ) := calculate_segment_times 10 3 (3/2)

/-- A detection exactly on the segment boundaries (s, e). -/
def detC1 (s e : ℚ) : Detection :=
  ⟨"Turdus merula", "Common Blackbird", 9/10, s, e⟩

/-- Detections exactly matching segments 2, 5 and 7 of `tenSegments`
(starts 3, 7.5 and 10.5 with hop 1.5). -/
def detsC1 : List Detection :=
  [detC1 3 6, detC1 (15/2) (21/2), detC1 (21/2) (27/2)]

/-- C1 counterexample: with the compact map {2:0, 5:1, 7:2} and a
pre-append store length of 40, the `embedding_idx` values the code
computes for segments {2,5,7} are NOT {42,43,44}. -/
theorem C1_counterexample :
    (match_embeddings_to_detections detsC1 tenSegments [(2,0),(5,1),(7,2)] 40).map Prod.snd
      ≠ [some 42, some 43, some 44] := by
  norm_num [match_embeddings_to_detections, detsC1, detC1, tenSegments,
    calculate_segment_times, List.range_succ, firstMatchIdx, lookupN]

/-- C1 (amended): for 10 segments and detections exactly matching segments
{2,5,7}, the compact index map is {2:0, 5:1, 7:2}; with a pre-append store
length of 40, each detection's `embedding_idx` is the pre-append length
plus its compact index, i.e. {40,41,42} for segments {2,5,7} in that
order (not {42,43,44}). -/
theorem C1_correlator_compaction :
    find_needed_segments detsC1 tenSegments = [(2,0),(5,1),(7,2)] ∧
    (match_embeddings_to_detections detsC1 tenSegments
        (find_needed_segments detsC1 tenSegments) 40).map Prod.snd
      = [some 40, some 41, some 42] := by
  have hmap : find_needed_segments detsC1 tenSegments = [(2,0),(5,1),(7,2)] := by
    norm_num [find_needed_segments, detsC1, detC1, tenSegments,
      calculate_segment_times, List.range_succ, firstMatchIdx, dedupN,
      sortAsc, insertAsc, withIdx, List.filterMap]
  refine ⟨hmap, ?_⟩
  rw [hmap]
  norm_num [match_embeddings_to_detections, detsC1, detC1, tenSegments,
    calculate_segment_times, List.range_succ, firstMatchIdx, lookupN]

/-! ### Behaviour of the insert loop -/

theorem insertLoopAux_none_eq (rows : List DetRow) (c : Conn) :
    insertLoopAux rows none c =
      Sum.inr ⟨c.committed,
        { c.pending with detections := c.pending.detections ++ rows }⟩ := by
  induction rows generalizing c with
  | nil => simp [insertLoopAux]
  | cons r rs ih =>
    simp [insertLoopAux, ih, execDML, insertDet]

theorem insertLoopAux_fail_eq (rows : List DetRow) (k : ℕ) (c : Conn)
    (hk : k < rows.length) :
    ∃ cf, insertLoopAux rows (some k) c = Sum.inl cf ∧
      cf.committed = c.committed := by
  induction rows generalizing k c with
  | nil => simp at hk
  | cons r rs ih =>
    cases k with
    | zero => exact ⟨c, rfl, rfl⟩
    | succ k =>
      obtain ⟨cf, h1, h2⟩ := ih k (execDML (insertDet r) c)
        (Nat.lt_of_succ_lt_succ hk)
      exact ⟨cf, h1, h2⟩

/-! ### C3: transactional batch insert -/

/-- C3: `batch_insert_detections` is all-or-nothing. If the insert of any
detection fails (`failAt = some k` with `k` in range), the transaction is
rolled back in full: the database, the processing_status table included,
is exactly as before the call. If no insert fails, every detection row is
committed and visible. -/
theorem C3_batch_insert_transactional (db : DB) (f : String) (meta : MetaRow)
    (dets : List Detection) (tr : String → String) (now : ℚ) :
    (∀ k, k < dets.length →
        batch_insert_detections db f meta dets tr now (some k) = db) ∧
    batch_insert_detections db f meta dets tr now none =
      { db with detections := db.detections ++ dets.map (mkDetRow f meta tr) } := by
  constructor
  · intro k hk
    have hne : dets.isEmpty = false := by
      cases dets
      · simp at hk
      · rfl
    obtain ⟨cf, h1, h2⟩ := insertLoopAux_fail_eq
      (dets.map (mkDetRow f meta tr)) k (connect db) (by simpa using hk)
    simp only [batch_insert_detections, hne, Bool.false_eq_true, if_false, h1]
    simp [closeConn, rollbackTxn, h2, connect]
  · cases hd : dets with
    | nil => simp [batch_insert_detections]
    | cons d ds =>
      simp [batch_insert_detections, insertLoopAux_none_eq, closeConn,
        execDML, commitTxn, connect]

/-- C3 witness: a one-detection insert failing at index 0 leaves a
concrete database unchanged, and the same insert succeeding appends
exactly the one row. -/
theorem C3_batch_insert_transactional_witness :
    batch_insert_detections ⟨[], [], []⟩ "w.wav" ⟨"w.wav", 0, 0, "UTC"⟩
        [⟨"Turdus merula", "Common Blackbird", 9/10, 3, 6⟩] id 5 (some 0)
      = ⟨[], [], []⟩ := by
  exact (C3_batch_insert_transactional ⟨[], [], []⟩ "w.wav"
    ⟨"w.wav", 0, 0, "UTC"⟩ [⟨"Turdus merula", "Common Blackbird", 9/10, 3, 6⟩]
    id 5).1 0 (by decide)

/-! ### C9: empty detection list is a no-op -/

/-- C9: calling `batch_insert_detections` with an empty detections list
returns immediately and changes nothing: no detection rows, and the
processing_status row is untouched — in particular the recording is never
marked completed by the call. -/
theorem C9_batch_insert_empty_noop (db : DB) (f : String) (meta : MetaRow)
    (tr : String → String) (now : ℚ) (failAt : Option ℕ) :
    batch_insert_detections db f meta [] tr now failAt = db := by
  simp [batch_insert_detections]

/-! ### C2: the Detections-iff-completed invariant -/

def metaC2 : MetaRow := ⟨"f.wav", 0, 0, "UTC"⟩

def detC2 : Detection := ⟨"Turdus merula", "Common Blackbird", 9/10, 3, 6⟩

/-- A database in which f.wav is being processed and has no detections
yet: exactly the state the writer sees when it starts a batch insert. -/
def dbC2 : DB :=
  ⟨[metaC2], [], [⟨"f.wav", Status.processing, some 0, none, none⟩]⟩

/-- C2: the invariant "Detections exist iff status is completed" is
BROKEN by the code on the success path of `batch_insert_detections`: the
`UPDATE processing_status ... 'completed'` statement executes after
`conn.commit()` and no further commit happens before `conn.close()`, so
the status update is discarded. After a successful insert the detections
are durably visible while the status row still says `processing`. -/
theorem C2_completed_status_update_lost :
    (∃ d ∈ (batch_insert_detections dbC2 "f.wav" metaC2 [detC2] id 5 none).detections,
        d.filename = "f.wav") ∧
    (batch_insert_detections dbC2 "f.wav" metaC2 [detC2] id 5 none).status
      = [⟨"f.wav", Status.processing, some 0, none, none⟩] := by
  constructor
  · refine ⟨mkDetRow "f.wav" metaC2 id detC2, ?_, rfl⟩
    simp [batch_insert_detections, dbC2, insertLoopAux, execDML, insertDet,
      commitTxn, closeConn, connect]
  · simp [batch_insert_detections, dbC2, insertLoopAux, execDML, insertDet,
      commitTxn, closeConn, connect]

/-! ### C7: insert_metadata is an idempotent upsert -/

theorem insert_metadata_form (d : DB) (m : MetaRow) :
    insert_metadata d m =
      ⟨d.metadata.filter (fun r => !(r.filename == m.filename)) ++ [m],
       d.detections,
       if d.status.any (fun r => r.filename == m.filename) then d.status
       else d.status ++ [pendingRow m.filename]⟩ := by
  by_cases h : d.status.any (fun r => r.filename == m.filename)
  · simp [insert_metadata, connect, execDML, commitTxn, closeConn,
      upsertMeta, ensureStatusRow, h]
  · simp [insert_metadata, connect, execDML, commitTxn, closeConn,
      upsertMeta, ensureStatusRow, h]

/-- C7: `insert_metadata` is idempotent (a second call with the same
Recording leaves the database exactly as after the first), and after any
call a processing_status row for the filename exists: a fresh `pending`
row when none existed, while a pre-existing status row (completed
included) is left unchanged. -/
theorem C7_insert_metadata_idempotent (db : DB) (m : MetaRow) :
    insert_metadata (insert_metadata db m) m = insert_metadata db m ∧
    (∃ r ∈ (insert_metadata db m).status, r.filename = m.filename) ∧
    (insert_metadata db m).status =
      (if db.status.any (fun r => r.filename == m.filename) then db.status
       else db.status ++ [pendingRow m.filename]) := by
  refine ⟨?_, ?_, ?_⟩
  · rw [insert_metadata_form db m, insert_metadata_form]
    by_cases h : db.status.any (fun r => r.filename == m.filename)
    · simp [h, List.filter_append, List.filter_filter]
    · simp [h, List.filter_append, List.filter_filter, pendingRow]
  · rw [insert_metadata_form db m]
    by_cases h : db.status.any (fun r => r.filename == m.filename)
    · simp only [h, if_true]
      obtain ⟨r, hr, hq⟩ := List.any_eq_true.mp h
      exact ⟨r, hr, by simpa using hq⟩
    · simp only [h, if_false]
      exact ⟨pendingRow m.filename, by simp [pendingRow], rfl⟩
  · rw [insert_metadata_form db m]

/-! ### C4: the startup recovery sequence -/

theorem cleanup_foldl_eq (fs : List String) (db : DB) :
    fs.foldl (fun acc f => cleanupOne f acc) db =
      ⟨db.metadata,
       db.detections.filter (fun d => !(fs.contains d.filename)),
       db.status.map (fun r =>
         if fs.contains r.filename then pendingRow r.filename else r)⟩ := by
  induction fs generalizing db with
  | nil => simp
  | cons f fs ih =>
    rw [List.foldl_cons, ih]
    simp only [cleanupOne]
    refine congrArg₂ (DB.mk db.metadata) ?_ ?_
    · rw [List.filter_filter]
      apply List.filter_congr
      intro d _
      by_cases h : d.filename = f <;>
        by_cases h2 : fs.contains d.filename = true <;>
          simp [h, h2, List.contains_cons]
    · rw [List.map_map]
      apply List.map_congr_left
      intro r _
      by_cases h : r.filename = f
      · simp [h, List.contains_cons, pendingRow]
      · by_cases h2 : fs.contains r.filename = true <;>
          simp [h, h2, List.contains_cons, pendingRow, Function.comp]

theorem cleanup_form (db : DB) :
    cleanup_incomplete_files db =
      ⟨db.metadata,
       db.detections.filter (fun d =>
         !(((db.status.filter isIncomplete).map (·.filename)).contains d.filename)),
       db.status.map (fun r =>
         if ((db.status.filter isIncomplete).map (·.filename)).contains r.filename
         then pendingRow r.filename else r)⟩ := by
  unfold cleanup_incomplete_files
  by_cases h : ((db.status.filter isIncomplete).map (·.filename)).isEmpty
  · rw [if_pos h]
    rw [List.isEmpty_iff] at h
    simp [h]
  · rw [if_neg h]
    simp [closeConn, commitTxn, execDML, connect, cleanup_foldl_eq]

theorem repair_foldl_eq (fs : List String) (db : DB) :
    fs.foldl (fun acc f => { acc with status := acc.status ++ [pendingRow f] }) db =
      ⟨db.metadata, db.detections, db.status ++ fs.map pendingRow⟩ := by
  induction fs generalizing db with
  | nil => simp
  | cons f fs ih => rw [List.foldl_cons, ih]; simp

theorem repair_form (db : DB) :
    repair_orphaned_metadata db =
      ⟨db.metadata, db.detections,
       db.status ++ ((db.metadata.map (·.filename)).filter
         (fun f => !(db.status.any (fun r => r.filename == f)))).map pendingRow⟩ := by
  unfold repair_orphaned_metadata
  by_cases h : ((db.metadata.map (·.filename)).filter
      (fun f => !(db.status.any (fun r => r.filename == f)))).isEmpty
  · rw [if_pos h]
    rw [List.isEmpty_iff] at h
    simp [h]
  · rw [if_neg h]
    simp [closeConn, commitTxn, execDML, connect, repair_foldl_eq]

/-- The post-recovery guarantees that do hold (the amended claim C4):
after `repair_orphaned_metadata` followed by `cleanup_incomplete_files`,
(1) every filename in metadata has a processing_status row, (2) every
filename whose status was processing or failed has zero Detection rows
and status pending, and (3) no status row says processing or failed any
more. The original claim's stronger "pending implies no Detections" for
arbitrary states is refuted separately. -/
def RecoveryInvariant (db : DB) : Prop :=
  (∀ m ∈ (startup_recovery db).metadata,
      ∃ r ∈ (startup_recovery db).status, r.filename = m.filename) ∧
  (∀ r ∈ db.status, (r.status = Status.processing ∨ r.status = Status.failed) →
      (∀ d ∈ (startup_recovery db).detections, d.filename ≠ r.filename) ∧
      (∀ r2 ∈ (startup_recovery db).status, r2.filename = r.filename →
        r2.status = Status.pending)) ∧
  (∀ r2 ∈ (startup_recovery db).status,
      r2.status ≠ Status.processing ∧ r2.status ≠ Status.failed)

/-- C4 (amended): the recovery guarantees hold for every database whose
metadata filenames are unique (the UNIQUE constraint of the metadata
table; with duplicates the source's plain INSERT in the repair step would
violate the processing_status primary key). -/
theorem C4_startup_recovery (db : DB)
    (_hnd : (db.metadata.map MetaRow.filename).Nodup) : RecoveryInvariant db := by
  set orphans := ((db.metadata.map (·.filename)).filter
      (fun f => !(db.status.any (fun r => r.filename == f)))) with horph
  set db1 : DB := ⟨db.metadata, db.detections,
    db.status ++ orphans.map pendingRow⟩ with hdb1
  have hdb1eq : repair_orphaned_metadata db = db1 := repair_form db
  have hfilt : db1.status.filter isIncomplete = db.status.filter isIncomplete := by
    rw [hdb1]
    show (db.status ++ orphans.map pendingRow).filter isIncomplete = _
    rw [List.filter_append, List.filter_map]
    have : orphans.filter (isIncomplete ∘ pendingRow) = [] := by
      apply List.eq_nil_of_length_eq_zero
      rw [List.length_eq_zero]
      apply List.filter_eq_nil_iff.mpr
      intro f _
      simp [isIncomplete, pendingRow, Function.comp]
    rw [this]
    simp
  set inc := (db.status.filter isIncomplete).map (·.filename) with hinc
  have hrec : startup_recovery db =
      ⟨db1.metadata,
       db1.detections.filter (fun d => !(inc.contains d.filename)),
       db1.status.map (fun r =>
         if inc.contains r.filename then pendingRow r.filename else r)⟩ := by
    show cleanup_incomplete_files (repair_orphaned_metadata db) = _
    rw [hdb1eq, cleanup_form db1, hfilt]
  refine ⟨?_, ?_, ?_⟩
  · intro m hm
    rw [hrec] at hm ⊢
    by_cases hex : db.status.any (fun r => r.filename == m.filename)
    · obtain ⟨r0, hr0, hq⟩ := List.any_eq_true.mp hex
      have hr0f : r0.filename = m.filename := by simpa using hq
      refine ⟨if inc.contains r0.filename then pendingRow r0.filename else r0,
        List.mem_map_of_mem _ (List.mem_append_left _ hr0), ?_⟩
      by_cases hc : inc.contains r0.filename = true
      · rw [if_pos hc]
        exact hr0f
      · rw [if_neg hc]
        exact hr0f
    · have hmo : m.filename ∈ orphans := by
        rw [horph]
        refine List.mem_filter.mpr ⟨List.mem_map_of_mem _ hm, ?_⟩
        simp only [Bool.not_eq_true] at hex
        simp [hex]
      refine ⟨if inc.contains (pendingRow m.filename).filename
          then pendingRow (pendingRow m.filename).filename
          else pendingRow m.filename,
        List.mem_map_of_mem _
          (List.mem_append_right _ (List.mem_map_of_mem _ hmo)), ?_⟩
      by_cases hc : inc.contains (pendingRow m.filename).filename = true
      · rw [if_pos hc]
        rfl
      · rw [if_neg hc]
        rfl
  · intro r hr hps
    have hri : isIncomplete r = true := by
      rcases hps with h | h <;> simp [isIncomplete, h]
    have hrin : r.filename ∈ inc := by
      rw [hinc]
      exact List.mem_map_of_mem _ (List.mem_filter.mpr ⟨hr, hri⟩)
    constructor
    · intro d hd hdf
      rw [hrec] at hd
      have hmf := List.mem_filter.mp hd
      have hc : inc.contains d.filename = true :=
        List.elem_iff.mpr (by rw [hdf]; exact hrin)
      rw [hc] at hmf
      simp at hmf
    · intro r2 hr2 hf2
      rw [hrec] at hr2
      obtain ⟨r1, hr1, hr1e⟩ := List.mem_map.mp hr2
      by_cases hc : inc.contains r1.filename = true
      · rw [if_pos hc] at hr1e
        rw [← hr1e]
        rfl
      · rw [if_neg hc] at hr1e
        subst hr1e
        exact absurd (List.elem_iff.mpr (by rw [hf2]; exact hrin)) hc
  · intro r2 hr2
    rw [hrec] at hr2
    obtain ⟨r1, hr1, hr1e⟩ := List.mem_map.mp hr2
    by_cases hc : inc.contains r1.filename = true
    · rw [if_pos hc] at hr1e
      rw [← hr1e]
      exact ⟨by simp [pendingRow], by simp [pendingRow]⟩
    · rw [if_neg hc] at hr1e
      subst hr1e
      constructor <;> intro hst
      · have hmem : r1 ∈ db1.status.filter isIncomplete :=
          List.mem_filter.mpr ⟨hr1, by simp [isIncomplete, hst]⟩
        rw [hfilt] at hmem
        exact hc (List.elem_iff.mpr (List.mem_map_of_mem _ hmem))
      · have hmem : r1 ∈ db1.status.filter isIncomplete :=
          List.mem_filter.mpr ⟨hr1, by simp [isIncomplete, hst]⟩
        rw [hfilt] at hmem
        exact hc (List.elem_iff.mpr (List.mem_map_of_mem _ hmem))

/-- A database state used to settle C4: one recording whose status row
already says `pending` while a detection row for it exists (such a state
is reachable, e.g. by interrupting a run after the completed-status update
was lost, then running recovery twice; the claim quantifies over any
database state). -/
def dbC4 : DB :=
  ⟨[⟨"p.wav", 0, 0, "UTC"⟩],
   [⟨"p.wav", 3, 6, "Turdus merula", 9/10⟩],
   [⟨"p.wav", Status.pending, none, none, none⟩]⟩

/-- C4 counterexample: the recovery sequence leaves `dbC4` untouched, so
after recovery the recording p.wav has status `pending` AND a Detection
row — it is in neither of the two claimed states ("completed with its
Detections" / "pending with no Detections"). -/
theorem C4_counterexample :
    startup_recovery dbC4 = dbC4 ∧
    (⟨"p.wav", Status.pending, none, none, none⟩ : StatusRow)
      ∈ (startup_recovery dbC4).status ∧
    ∃ d ∈ (startup_recovery dbC4).detections, d.filename = "p.wav" := by
  have h : startup_recovery dbC4 = dbC4 := rfl
  refine ⟨h, ?_, ?_⟩
  · rw [h]
    exact List.mem_singleton.mpr rfl
  · rw [h]
    exact ⟨⟨"p.wav", 3, 6, "Turdus merula", 9/10⟩,
      List.mem_singleton.mpr rfl, rfl⟩

/-- C4 witness: the amended recovery guarantees, instantiated at a
concrete database holding one orphaned metadata row, one `processing`
recording with a detection row, and one `failed` recording. -/
theorem C4_startup_recovery_witness :
    (((⟨[⟨"a.wav", 0, 0, "UTC"⟩, ⟨"b.wav", 0, 0, "UTC"⟩, ⟨"c.wav", 0, 0, "UTC"⟩],
        [⟨"b.wav", 3, 6, "Turdus merula", 9/10⟩],
        [⟨"b.wav", Status.processing, some 0, none, none⟩,
         ⟨"c.wav", Status.failed, none, none, some "boom"⟩]⟩ : DB).metadata.map
          MetaRow.filename).Nodup) ∧
    RecoveryInvariant
      ⟨[⟨"a.wav", 0, 0, "UTC"⟩, ⟨"b.wav", 0, 0, "UTC"⟩, ⟨"c.wav", 0, 0, "UTC"⟩],
       [⟨"b.wav", 3, 6, "Turdus merula", 9/10⟩],
       [⟨"b.wav", Status.processing, some 0, none, none⟩,
        ⟨"c.wav", Status.failed, none, none, some "boom"⟩]⟩ :=
  ⟨by decide, C4_startup_recovery _ (by decide)⟩

/-! ### C6: detections without an exact segment match -/

theorem firstMatchIdx_eq_none (ds de : ℚ) (segs : List (ℚ × ℚ)) (i : ℕ)
    (h : ∀ se ∈ segs, ¬(se.1 = ds ∧ se.2 = de)) :
    firstMatchIdx ds de segs i = none := by
  induction segs generalizing i with
  | nil => rfl
  | cons se rest ih =>
    rw [firstMatchIdx, if_neg (h se (List.mem_cons_self _ _))]
    exact ih _ fun x hx => h x (List.mem_cons_of_mem _ hx)

/-- C6: a detection whose (start_time, end_time) differs from every
segment's (start, end) makes the correlation step return it with
`embedding_idx = None` — no exception, and the detection record (species,
times, confidence) is carried through unchanged; the row later inserted
for it keeps confidence, both timestamps and the translated species name
independent of any embedding. -/
theorem C6_unmatched_detection (dets : List Detection) (segs : List (ℚ × ℚ))
    (mapping : List (ℕ × ℕ)) (start_idx : ℕ) (d : Detection)
    (hd : d ∈ dets)
    (hnm : ∀ se ∈ segs, ¬(se.1 = d.start_time ∧ se.2 = d.end_time)) :
    (d, (none : Option ℕ)) ∈
      match_embeddings_to_detections dets segs mapping start_idx ∧
    ∀ (f : String) (meta : MetaRow) (tr : String → String),
      (mkDetRow f meta tr d).confidence = d.confidence ∧
      (mkDetRow f meta tr d).segment_start_utc = meta.timestamp_utc + d.start_time ∧
      (mkDetRow f meta tr d).segment_end_utc = meta.timestamp_utc + d.end_time ∧
      (mkDetRow f meta tr d).scientific_name = tr d.scientific_name := by
  constructor
  · have hnone := firstMatchIdx_eq_none d.start_time d.end_time segs 0 hnm
    rw [match_embeddings_to_detections]
    refine List.mem_map.mpr ⟨d, hd, ?_⟩
    rw [hnone]
  · intro f meta tr
    exact ⟨rfl, rfl, rfl, rfl⟩

/-- C6 witness: a detection at (1, 4) against the single segment (0, 3)
is unmatched and comes back annotated with `none`. -/
theorem C6_unmatched_detection_witness :
    ((⟨"Turdus merula", "Common Blackbird", 9/10, 1, 4⟩ : Detection)
        ∈ [(⟨"Turdus merula", "Common Blackbird", 9/10, 1, 4⟩ : Detection)]) ∧
    (∀ se ∈ [((0:ℚ), (3:ℚ))],
        ¬(se.1 = (⟨"Turdus merula", "Common Blackbird", 9/10, 1, 4⟩ : Detection).start_time ∧
          se.2 = (⟨"Turdus merula", "Common Blackbird", 9/10, 1, 4⟩ : Detection).end_time)) ∧
    ((⟨"Turdus merula", "Common Blackbird", 9/10, 1, 4⟩ : Detection), (none : Option ℕ)) ∈
      match_embeddings_to_detections
        [⟨"Turdus merula", "Common Blackbird", 9/10, 1, 4⟩] [((0:ℚ), (3:ℚ))] [] 40 :=
  ⟨List.mem_singleton.mpr rfl, by norm_num [Detection.start_time],
    (C6_unmatched_detection _ _ [] 40 _ (List.mem_singleton.mpr rfl)
      (by norm_num [Detection.start_time])).1⟩

/-! ### C8: the critical-keyword scan of the analysis loop -/

theorem scanCritical_iff (kws : List (List Char)) (s : List Char) :
    scanCritical kws s = true ↔
      ∃ kw ∈ kws, containsSeq kw s = true ∧
        ¬(kw = "error".toList ∧ containsSeq "0 error".toList s = true) := by
  induction kws with
  | nil => simp [scanCritical]
  | cons kw rest ih =>
    rw [scanCritical]
    by_cases h1 : containsSeq kw s = true
    · rw [if_pos h1]
      by_cases h2 : (kw == "error".toList && containsSeq "0 error".toList s) = true
      · rw [if_pos h2]
        rw [ih]
        have h2p : kw = "error".toList ∧ containsSeq "0 error".toList s = true := by
          simpa using h2
        constructor
        · rintro ⟨kw2, hm, hc⟩
          exact ⟨kw2, List.mem_cons_of_mem _ hm, hc⟩
        · rintro ⟨kw2, hm, hc, hne⟩
          rcases List.mem_cons.mp hm with rfl | hm2
          · exact absurd ⟨h2p.1, h2p.2⟩ hne
          · exact ⟨kw2, hm2, hc, hne⟩
      · rw [if_neg h2]
        constructor
        · intro _
          refine ⟨kw, List.mem_cons_self _ _, h1, ?_⟩
          rintro ⟨ha, hb⟩
          exact h2 (by rw [ha, hb]; simp)
        · intro _
          rfl
    · rw [if_neg h1]
      rw [ih]
      constructor
      · rintro ⟨kw2, hm, hc⟩
        exact ⟨kw2, List.mem_cons_of_mem _ hm, hc⟩
      · rintro ⟨kw2, hm, hc, hne⟩
        rcases List.mem_cons.mp hm with rfl | hm2
        · exact absurd hc h1
        · exact ⟨kw2, hm2, hc, hne⟩

/-- C8: after a classifier call, the recording is marked failed with the
truncated diagnostic (never longer than 218 characters) exactly when the
lowercased captured output contains one of the fixed critical keywords,
where a hit on the keyword `error` is ignored whenever the literal phrase
`0 error` is present; in every other case the package (filename,
Recording, detections) is enqueued. -/
theorem C8_critical_keyword_scan (f : String) (meta : MetaRow)
    (dets : List Detection) (stderr : List Char) :
    (handle_analysis f meta dets stderr
        = LoopAction.markFailed f (truncMsg stderr) ↔
      ∃ kw ∈ error_keywords, containsSeq kw (lowerStr stderr) = true ∧
        ¬(kw = "error".toList ∧
          containsSeq "0 error".toList (lowerStr stderr) = true)) ∧
    (handle_analysis f meta dets stderr = LoopAction.enqueue ⟨f, meta, dets⟩ ↔
      ¬ ∃ kw ∈ error_keywords, containsSeq kw (lowerStr stderr) = true ∧
        ¬(kw = "error".toList ∧
          containsSeq "0 error".toList (lowerStr stderr) = true)) ∧
    (truncMsg stderr).length ≤ 218 := by
  have hiff := scanCritical_iff error_keywords (lowerStr stderr)
  have hlen : (truncMsg stderr).length ≤ 218 := by
    rw [truncMsg, List.length_append, List.length_take]
    have h18 : ("TensorFlow error: ".toList).length = 18 := rfl
    rw [h18]
    omega
  by_cases h : scanCritical error_keywords (lowerStr stderr) = true
  · have hex := hiff.mp h
    refine ⟨⟨fun _ => hex, fun _ => ?_⟩, ⟨fun hEq => ?_, fun hn => absurd hex hn⟩, hlen⟩
    · rw [handle_analysis, if_pos h]
    · rw [handle_analysis, if_pos h] at hEq
      exact LoopAction.noConfusion hEq
  · have hnex : ¬ ∃ kw ∈ error_keywords, containsSeq kw (lowerStr stderr) = true ∧
        ¬(kw = "error".toList ∧
          containsSeq "0 error".toList (lowerStr stderr) = true) :=
      fun hexx => h (hiff.mpr hexx)
    refine ⟨⟨fun hEq => ?_, fun hexx => absurd hexx hnex⟩,
      ⟨fun _ => hnex, fun _ => ?_⟩, hlen⟩
    · rw [handle_analysis, if_neg h] at hEq
      exact absurd hEq (fun hEq2 => LoopAction.noConfusion hEq2)
    · rw [handle_analysis, if_neg h]

end BirdnetWalker
